import Mathlib

/-!
Shallow embedding of the `boltzmann-machines` repository
(`src/hdp_dbm/rbm.py` and `src/hdp_dbm/base/_tf.py`).

Tensors are modelled as finite matrices over `ℚ` (the claims under
verification are about the algebraic structure of the computation graph,
not about float rounding, so float32 values are modelled as exact
rationals).  The activation `tf.nn.sigmoid` and `tf.nn.softplus` are
transcendental real functions with no computable exact representation;
since none of the claims depends on their closed form, the graph
definitions take them as function parameters `sg sp : ℚ → ℚ`, which keeps
every definition computable and every concrete instance evaluable.
-/

namespace BoltzmannSpec

/-- A dense `m × n` float tensor, modelled as a function matrix over `ℚ`. -/
abbrev Mat (m n : ℕ) : Type := Fin m → Fin n → ℚ

/-- A length-`n` float vector (a bias tensor). -/
abbrev Vec (n : ℕ) : Type := Fin n → ℚ

/-- Embedding of `tf.matmul(A, B)`. -/
def matmul {m n p : ℕ} (A : Mat m n) (B : Mat n p) : Mat m p :=
  fun i j => ∑ k, A i k * B k j

/-- Embedding of `tf.transpose(A)` for a rank-2 tensor. -/
def transposeM {m n : ℕ} (A : Mat m n) : Mat n m :=
  fun i j => A j i

/-- Broadcast addition of a bias row vector, as in `tf.matmul(v, W) + hb`. -/
def addRowBias {m n : ℕ} (A : Mat m n) (b : Vec n) : Mat m n :=
  fun i j => A i j + b j

/-- Embedding of `tf.to_float(tf.less(a, b))` on one scalar entry:
`1.0` when `a < b`, else `0.0`. -/
def toFloatLess (a b : ℚ) : ℚ :=
  if a < b then 1 else 0

/-- Embedding of `tf.reduce_mean(A, axis=0)`: columnwise mean over the rows. -/
def reduceMeanAxis0 {m n : ℕ} (A : Mat m n) : Vec n :=
  fun j => (∑ i, A i j) / (m : ℚ)

/-- Embedding of `tf.reduce_mean(A)` with no axis: mean over all entries. -/
def reduceMeanAll {m n : ℕ} (A : Mat m n) : ℚ :=
  (∑ i, ∑ j, A i j) / ((m * n : ℕ) : ℚ)

/-- Embedding of `tf.square(A)` (elementwise square). -/
def tfSquare {m n : ℕ} (A : Mat m n) : Mat m n :=
  fun i j => A i j * A i j

/-- Embedding of `tf.reduce_sum(A, axis=1)`: rowwise sum. -/
def reduceSumAxis1 {m n : ℕ} (A : Mat m n) : Vec m :=
  fun i => ∑ j, A i j

/-- Embedding of `tf.einsum('ij,j->i', v, b)`. -/
def einsum_ij_j_i {m n : ℕ} (v : Mat m n) (b : Vec n) : Vec m :=
  fun i => ∑ j, v i j * b j

/-- The weight variables of `BaseRBM` (`_W`, `_hb`, `_vb` created in
`_make_init_op`): an `n_visible × n_hidden` weight matrix, a hidden bias
and a visible bias. -/
structure RBMWeights (nv nh : ℕ) where
  W : Mat nv nh
  hb : Vec nh
  vb : Vec nv

section Graph

variable {m nv nh : ℕ}

/-- Embedding of `BaseRBM._propup`: `tf.matmul(v, W) + hb`. -/
def propup (p : RBMWeights nv nh) (v : Mat m nv) : Mat m nh :=
  addRowBias (matmul v p.W) p.hb

/-- Embedding of `BaseRBM._propdown`: `tf.matmul(h, W, transpose_b=True) + vb`. -/
def propdown (p : RBMWeights nv nh) (h : Mat m nh) : Mat m nv :=
  addRowBias (matmul h (transposeM p.W)) p.vb

/-- Embedding of `BaseRBM._sample_h_given_v`.  `sg` is `tf.nn.sigmoid`;
`h_rand` is the `_h_rand` placeholder.  Returns `(h_means, h_samples)`. -/
def sample_h_given_v (sg : ℚ → ℚ) (p : RBMWeights nv nh)
    (h_rand : Mat m nh) (v : Mat m nv) : Mat m nh × Mat m nh :=
  let h_means : Mat m nh := fun i j => sg (propup p v i j)
  let h_samples : Mat m nh := fun i j => toFloatLess (h_rand i j) (h_means i j)
  (h_means, h_samples)

/-- Embedding of `BaseRBM._sample_v_given_h`.  `v_rand` is the `_v_rand`
placeholder.  Returns `(v_means, v_samples)`. -/
def sample_v_given_h (sg : ℚ → ℚ) (p : RBMWeights nv nh)
    (v_rand : Mat m nv) (h : Mat m nh) : Mat m nv × Mat m nv :=
  let v_means : Mat m nv := fun i j => sg (propdown p h i j)
  let v_samples : Mat m nv := fun i j => toFloatLess (v_rand i j) (v_means i j)
  (v_means, v_samples)

/-- The tensors live at the end of one body of the `for` loop in
`_make_train_op`: `v_means, v_samples` from `_sample_v_given_h` and
`h_means, h_samples` from `_sample_h_given_v`. -/
structure SweepOut (m nv nh : ℕ) where
  v_means : Mat m nv
  v_samples : Mat m nv
  h_means : Mat m nh
  h_samples : Mat m nh

/-- One body of the `for _ in xrange(self.n_gibbs_steps)` loop of
`_make_train_op`: sample `v` given the current hidden samples, then
sample `h` given those visible samples.  Note that the same `_h_rand`
and `_v_rand` placeholders are wired into every sweep. -/
def sweep (sg : ℚ → ℚ) (p : RBMWeights nv nh)
    (h_rand : Mat m nh) (v_rand : Mat m nv) (h_samples : Mat m nh) :
    SweepOut m nv nh :=
  let v := sample_v_given_h sg p v_rand h_samples
  let h := sample_h_given_v sg p h_rand v.2
  ⟨v.1, v.2, h.1, h.2⟩

/-- The loop of `_make_train_op`, transcribed directly: the accumulator
starts as `None` (`h_means, v_means, v_samples = None`) and each
iteration overwrites it with the sweep results, threading `h_samples`.
Returns the final `(v_means, v_samples, h_means, h_samples)` bundle
(still `none` when the step count is `0`) and the final `h_samples`. -/
def gibbsLoop (sg : ℚ → ℚ) (p : RBMWeights nv nh)
    (h_rand : Mat m nh) (v_rand : Mat m nv) :
    Option (SweepOut m nv nh) → Mat m nh → ℕ → Option (SweepOut m nv nh) × Mat m nh
  | acc, hs, 0 => (acc, hs)
  | _, hs, Nat.succ k =>
    let s := sweep sg p h_rand v_rand hs
    gibbsLoop sg p h_rand v_rand (some s) s.h_samples k

/-- The `gibbs_chain` name scope of `_make_train_op`: sample the hidden
units from the input batch, then run `n_gibbs_steps` sweeps.  Returns
the positive-phase `(h0_means, h0_samples)` and the loop result. -/
def gibbsChain (sg : ℚ → ℚ) (p : RBMWeights nv nh)
    (h_rand : Mat m nh) (v_rand : Mat m nv) (X : Mat m nv) (n_gibbs_steps : ℕ) :
    (Mat m nh × Mat m nh) × (Option (SweepOut m nv nh) × Mat m nh) :=
  let h0 := sample_h_given_v sg p h_rand X
  (h0, gibbsLoop sg p h_rand v_rand none h0.2 n_gibbs_steps)

/-- The `grads_estimates` name scope of `_make_train_op`, for batch-size
constant `N`:
`dW = (matmul(X^T, h0_means) - matmul(v_samples^T, h_means)) / N`,
`dhb = reduce_mean(h0_means - h_means, axis=0) / N`,
`dvb = reduce_mean(X - v_samples, axis=0) / N`. -/
def gradsEstimates (N : ℚ) (X : Mat m nv) (h0_means h_means : Mat m nh)
    (v_samples : Mat m nv) : Mat nv nh × Vec nh × Vec nv :=
  let dW_positive := matmul (transposeM X) h0_means
  let dW_negative := matmul (transposeM v_samples) h_means
  let dW : Mat nv nh := fun i j => (dW_positive i j - dW_negative i j) / N
  let dhb : Vec nh := fun j => reduceMeanAxis0 (fun i j => h0_means i j - h_means i j) j / N
  let dvb : Vec nv := fun j => reduceMeanAxis0 (fun i j => X i j - v_samples i j) j / N
  (dW, dhb, dvb)

end Graph

/-- The TensorFlow variables of one `BaseRBM` graph: the weights
(`weights` name scope) and the gradient accumulators (`grads` name
scope), exactly the variables created by `_make_init_op`.  Field names
follow the source (`W`, `hb`, `vb`, `dW`, `dhb`, `dvb`). -/
structure TrainState (nv nh : ℕ) where
  W : Mat nv nh
  hb : Vec nh
  vb : Vec nv
  dW : Mat nv nh
  dhb : Vec nh
  dvb : Vec nv

section Graph

variable {m nv nh : ℕ}

/-- The initial variable state created by `_make_init_op`: weight matrix
`W0` (drawn by `tf.random_normal`, here passed in), zero biases and zero
gradient accumulators. -/
def initState (nv nh : ℕ) (W0 : Mat nv nh) : TrainState nv nh :=
  { W := W0, hb := fun _ => 0, vb := fun _ => 0
    dW := fun _ _ => 0, dhb := fun _ => 0, dvb := fun _ => 0 }

/-- The `momentum_updates` name scope of `_make_train_op`, acting on the
variable state.  The tensors `momentum * self._dW + dW` (and likewise for
`dhb`, `dvb`) are built from the `grads` *variables* and rebound to the
Python attributes; the grouped `train_op` contains only the three
`assign_add` updates of `W`, `hb`, `vb`, so running it leaves the `grads`
variables at their previous values. -/
def momentumUpdates (lr mom : ℚ) (s : TrainState nv nh)
    (est : Mat nv nh × Vec nh × Vec nv) : TrainState nv nh :=
  let dW_t : Mat nv nh := fun i j => mom * s.dW i j + est.1 i j
  let dhb_t : Vec nh := fun j => mom * s.dhb j + est.2.1 j
  let dvb_t : Vec nv := fun j => mom * s.dvb j + est.2.2 j
  { W := fun i j => s.W i j + lr * dW_t i j
    hb := fun j => s.hb j + lr * dhb_t j
    vb := fun j => s.vb j + lr * dvb_t j
    dW := s.dW, dhb := s.dhb, dvb := s.dvb }

/-- One execution of the `train_op` built by `_make_train_op`, on a batch
`X` with noise draws `h_rand`, `v_rand` and scalar feeds `lr`
(`learning_rate` placeholder), `mom` (`momentum` placeholder); `N` is the
`batch_size` constant.  The graph runs the Gibbs chain, forms the
gradient estimates from `h0_means` and the final sweep's `h_means` and
`v_samples`, and applies the momentum updates.  `none` models the
failure of graph construction when `n_gibbs_steps = 0` (the loop never
runs and `v_samples` stays `None`). -/
def trainStep (sg : ℚ → ℚ) (N lr mom : ℚ) (n_gibbs_steps : ℕ)
    (s : TrainState nv nh) (X : Mat m nv) (h_rand : Mat m nh) (v_rand : Mat m nv) :
    Option (TrainState nv nh) :=
  let p : RBMWeights nv nh := ⟨s.W, s.hb, s.vb⟩
  let chain := gibbsChain sg p h_rand v_rand X n_gibbs_steps
  let h0_means := chain.1.1
  match chain.2.1 with
  | none => none
  | some c =>
    some (momentumUpdates lr mom s (gradsEstimates N X h0_means c.h_means c.v_samples))

/-- The `mean_squared_recon_error` scope of `_make_train_op`:
`tf.reduce_mean(tf.square(X_batch - v_means))`, with `v_means` coming
from the last iteration of the Gibbs loop (`none` when the loop never
ran). -/
def msre_op (sg : ℚ → ℚ) (p : RBMWeights nv nh)
    (h_rand : Mat m nh) (v_rand : Mat m nv) (X : Mat m nv) (n_gibbs_steps : ℕ) :
    Option ℚ :=
  ((gibbsChain sg p h_rand v_rand X n_gibbs_steps).2.1).map fun c =>
    reduceMeanAll (tfSquare (fun i j => X i j - c.v_means i j))

/-- Embedding of `BaseRBM._free_energy` (`sp` is `tf.nn.softplus`):
`fe = -einsum('ij,j->i', v, vb); fe -= reduce_sum(softplus(propup(v)), axis=1);`
`fe = reduce_mean(fe, axis=0)`. -/
def free_energy (sp : ℚ → ℚ) (p : RBMWeights nv nh) (v : Mat m nv) : ℚ :=
  let fe1 : Vec m := fun i => -(einsum_ij_j_i v p.vb i)
  let fe2 : Vec m := fun i =>
    fe1 i - reduceSumAxis1 (fun i j => sp (propup p v i j)) i
  (∑ i, fe2 i) / (m : ℚ)

/-- The `transform_op` collection entry of `_make_train_op`:
`tf.identity(h_means)` where `h_means` is the hidden-means tensor left by
the last Gibbs sweep (`none` when `n_gibbs_steps = 0`, where the Python
graph construction fails on `tf.identity(None)`). -/
def transform_op (sg : ℚ → ℚ) (p : RBMWeights nv nh)
    (h_rand : Mat m nh) (v_rand : Mat m nv) (X : Mat m nv) (n_gibbs_steps : ℕ) :
    Option (Mat m nh) :=
  ((gibbsChain sg p h_rand v_rand X n_gibbs_steps).2.1).map fun c => c.h_means

end Graph

section Transform

variable {lenX nv nh : ℕ}

/-- Row access with out-of-range padding, used to carve batches out of
`X`; a batch produced by `batch_iter` only reads rows in range, so the
padding branch is never taken for the batches `transform` visits. -/
def rowPad (X : Mat lenX nv) (i : ℕ) : Vec nv :=
  if h : i < lenX then X ⟨i, h⟩ else fun _ => 0

/-- The `b`-th size-`bs` batch of `X`, i.e. rows
`b*bs, b*bs+1, ..., b*bs+bs-1`, as yielded by `batch_iter`. -/
def batchOf (bs : ℕ) (X : Mat lenX nv) (b : ℕ) : Mat bs nv :=
  fun i j => rowPad X (b * bs + i.val) j

/-- The numpy slice assignment `H[start:(start + bs)] = H_b` of
`BaseRBM.transform`. -/
def writeBlock (bs : ℕ) (H : Mat lenX nh) (start : ℕ) (Hb : Mat bs nh) :
    Mat lenX nh :=
  fun i j =>
    if h : start ≤ i.val ∧ i.val < start + bs then
      Hb ⟨i.val - start, by omega⟩ j
    else H i j

/-- Embedding of `BaseRBM.transform`.  `H` starts as
`np.zeros((len(X), n_hidden))`; for each batch yielded by `batch_iter`
the hidden means computed by `transform_op` (fed that batch and fresh
noise `randH b`, `randV b` from `_make_tf_feed_dict`) are written into
the next `batch_size` rows.

Modelled from the spec: `batch_iter` (file `utils`, not under `src/`)
yields the consecutive full batches of `batch_size` rows of `X` in input
order, dropping a final partial batch, so the loop runs for
`b = 0, ..., len(X)/batch_size - 1` with `start = b * batch_size`. -/
def transform (sg : ℚ → ℚ) (p : RBMWeights nv nh) (bs : ℕ)
    (randH : ℕ → Mat bs nh) (randV : ℕ → Mat bs nv)
    (n_gibbs_steps : ℕ) (X : Mat lenX nv) : Option (Mat lenX nh) :=
  let H0 : Mat lenX nh := fun _ _ => 0
  (List.range (lenX / bs)).foldl
    (fun acc b =>
      acc.bind fun H =>
        (transform_op sg p (randH b) (randV b) (batchOf bs X b) n_gibbs_steps).map
          fun Hb => writeBlock bs H (b * bs) Hb)
    (some H0)

end Transform

/-- Python `name.startswith(prefx)`, modelled on the character list of
the string (same semantics as `String.startsWith`, stated over `List`
so that it evaluates by kernel reduction). -/
def startswith (name prefx : String) : Bool :=
  List.isPrefixOf prefx.data name.data

/-- Python `name.endswith(suffix)`, modelled on the character list of
the string. -/
def endswith (name suffix : String) : Bool :=
  List.isSuffixOf suffix.data name.data

/-- Embedding of `is_weight_name` from `base/_tf.py`:
`not name.startswith('_') and name.endswith('_')`. -/
def is_weight_name (name : String) : Bool :=
  !(startswith name "_") && endswith name "_"

/-- The slice of a `TensorFlowModel` instance that `get_weights` reads:
the `save_model` and `called_fit` flags set in `__init__` / `fit`, and
the names of the instance attributes (the keys of `vars(self)`; the
values are framework tensor objects and are elided, since `get_weights`
selects attributes by name alone). -/
structure TFModel where
  save_model : Bool
  called_fit : Bool
  attrs : List String
deriving DecidableEq

/-- Embedding of `TensorFlowModel.get_weights`.  The guards run before
anything else, so a raise leaves the instance untouched; the success
value returns the (unchanged) model together with the keys of the
returned weights dict, `vars(self)` filtered by `is_weight_name`. -/
def get_weights (mo : TFModel) : Except String (TFModel × List String) :=
  if !mo.called_fit then
    Except.error "fit must be called before calling get_weights"
  else if !mo.save_model then
    Except.error "model not found, rerun with save_model=True"
  else
    Except.ok (mo, mo.attrs.filter is_weight_name)

/-- The attribute names of a fitted `BaseRBM` instance: those assigned in
`TensorFlowModel.__init__` and `_init_tf_ops`, in `BaseRBM.__init__`, and
in `_make_init_op` / `_fit` / `transform`.  `random_seed` and `_rng` are
modelled from the spec (they are set by `BaseModel.__init__` in
`_base.py`, which is not under `src/`; `rbm.py` reads `self.random_seed`
and `self._rng`). -/
def baseRBMAttrNames : List String :=
  ["_model_dirpath", "_model_filepath", "_params_filepath", "_summary_dirpath",
   "save_model", "called_fit",
   "_tf_merged_summaries", "_tf_saver", "_tf_session", "_tf_summary_writer",
   "_tf_train_writer", "_tf_val_writer",
   "random_seed", "_rng",
   "n_visible", "n_hidden", "w_std", "n_gibbs_steps",
   "learning_rate", "momentum", "batch_size", "max_epoch",
   "compute_metrics_every", "verbose",
   "epoch", "iter",
   "_X_batch", "_h_rand", "_v_rand", "_learning_rate", "_momentum",
   "_W", "_hb", "_vb", "_dW", "_dhb", "_dvb",
   "_train_op", "_transform_op", "_msre"]

/-- A fitted `BaseRBM` as seen by `get_weights`: `fit` has been called
and `save_model` was left at its default `True`. -/
def fittedBaseRBM : TFModel :=
  { save_model := true, called_fit := true, attrs := baseRBMAttrNames }

/-- A JSON-serialisable hyperparameter value (the `BaseRBM` constructor
parameters are numbers, booleans and strings). -/
inductive JVal where
  | jnum (q : ℚ)
  | jbool (b : Bool)
  | jstr (s : String)
deriving DecidableEq

/-- The parameter dictionary of a model, as returned by
`get_params(deep=False)`: an association of parameter names to values. -/
abbrev ParamDict : Type := List (String × JVal)

/-- The persistence-relevant state of a `TensorFlowModel`: its
hyperparameter dictionary.  Modelled from the spec: `BaseModel`
(file `_base.py`, not under `src/`) holds the constructor
hyperparameters and exposes them through `get_params` / `set_params`. -/
structure PersistModel where
  params : ParamDict
deriving DecidableEq

/-- Modelled from the spec: `BaseModel.get_params(deep=False)` returns
the model's hyperparameter dictionary. -/
def get_params (mo : PersistModel) : ParamDict :=
  mo.params

/-- Modelled from the spec: `BaseModel.set_params(**params)` overwrites
the model's hyperparameters with the given dictionary (at load time the
dictionary holds every key `get_params` produced at save time). -/
def set_params (mo : PersistModel) (ps : ParamDict) : PersistModel :=
  { mo with params := ps }

/-- The contents of the `params.json` file. -/
structure JsonFile where
  contents : ParamDict
deriving DecidableEq

/-- Modelled from the spec: `json.dump` (Python standard library, an
external dependency) writes the parameter dictionary to `params.json`
faithfully. -/
def json_dump (ps : ParamDict) : JsonFile :=
  ⟨ps⟩

/-- Modelled from the spec: `json.load` parses `params.json` back into
the dictionary `json.dump` wrote. -/
def json_load (f : JsonFile) : ParamDict :=
  f.contents

/-- The model directory written by `_save_model`: the `params.json` file
holding `get_params(deep=False)`, plus the framework-native checkpoint
files written by `tf.train.Saver.save` (their contents live inside the
external framework and are elided). -/
structure ModelDir where
  params_json : JsonFile
deriving DecidableEq

/-- Embedding of `TensorFlowModel._save_model`: dump
`get_params(deep=False)` to `params.json` and save the checkpoint. -/
def save_model_dir (mo : PersistModel) : ModelDir :=
  { params_json := json_dump (get_params mo) }

/-- Embedding of `TensorFlowModel.load_model`: construct a model with
constructor defaults (`defaults`), read `params.json`, call
`set_params(**params)`, then restore the checkpoint into the rebuilt
graph. -/
def load_model (defaults : PersistModel) (d : ModelDir) : PersistModel :=
  set_params defaults (json_load d.params_json)

section SpecSide

variable {m nv nh : ℕ}

/-- The hidden-samples transition of one Gibbs sweep. -/
def sweepHs (sg : ℚ → ℚ) (p : RBMWeights nv nh)
    (h_rand : Mat m nh) (v_rand : Mat m nv) : Mat m nh → Mat m nh :=
  fun hs => (sweep sg p h_rand v_rand hs).h_samples

/-- The CD chain as the spec describes it, for `k + 1` Gibbs steps:
sample the hidden units from the input batch, iterate the sweep `k`
times on the hidden samples, and take the full output of one final
sweep. -/
def cdChainSpec (sg : ℚ → ℚ) (p : RBMWeights nv nh)
    (h_rand : Mat m nh) (v_rand : Mat m nv) (X : Mat m nv) (k : ℕ) :
    SweepOut m nv nh :=
  sweep sg p h_rand v_rand
    ((sweepHs sg p h_rand v_rand)^[k] ((sample_h_given_v sg p h_rand X).2))

/-- The training step as the claim (and the spec's momentum smoothing)
describes it: identical to `trainStep` except that the updated velocity
accumulators are stored back, so that they persist into the next
training step. -/
def claimedMomentumStep (sg : ℚ → ℚ) (N lr mom : ℚ) (n_gibbs_steps : ℕ)
    (s : TrainState nv nh) (X : Mat m nv) (h_rand : Mat m nh) (v_rand : Mat m nv) :
    Option (TrainState nv nh) :=
  let p : RBMWeights nv nh := ⟨s.W, s.hb, s.vb⟩
  let chain := gibbsChain sg p h_rand v_rand X n_gibbs_steps
  let h0_means := chain.1.1
  match chain.2.1 with
  | none => none
  | some c =>
    let est := gradsEstimates N X h0_means c.h_means c.v_samples
    let dW_t : Mat nv nh := fun i j => mom * s.dW i j + est.1 i j
    let dhb_t : Vec nh := fun j => mom * s.dhb j + est.2.1 j
    let dvb_t : Vec nv := fun j => mom * s.dvb j + est.2.2 j
    some { W := fun i j => s.W i j + lr * dW_t i j
           hb := fun j => s.hb j + lr * dhb_t j
           vb := fun j => s.vb j + lr * dvb_t j
           dW := dW_t, dhb := dhb_t, dvb := dvb_t }

/-- The result matrix as the claim about `transform` describes it: block
`b` of `batch_size` consecutive rows holds the per-batch hidden means
`g b`, in input order, and rows beyond the last written batch are
zeros. -/
def blockSpec {lenX : ℕ} (bs : ℕ) (hbs : 0 < bs) (g : ℕ → Mat bs nh)
    (numBatches : ℕ) : Mat lenX nh :=
  fun i j =>
    if i.val < numBatches * bs then
      g (i.val / bs) ⟨i.val % bs, Nat.mod_lt _ hbs⟩ j
    else 0

/-- The hidden means `transform` computes for batch `b` of `X` when
`n_gibbs_steps = k + 1`. -/
def transformBatchMeans {lenX : ℕ} (sg : ℚ → ℚ) (p : RBMWeights nv nh) (bs : ℕ)
    (randH : ℕ → Mat bs nh) (randV : ℕ → Mat bs nv)
    (k : ℕ) (X : Mat lenX nv) (b : ℕ) : Mat bs nh :=
  (cdChainSpec sg p (randH b) (randV b) (batchOf bs X b) k).h_means

/-- A constant dummy activation used to evaluate the graph on concrete
inputs: none of the claims under test depends on the closed form of
`tf.nn.sigmoid`, so any function can be fed for it when computing a
concrete counterexample. -/
def constHalf : ℚ → ℚ := fun _ => 1 / 2

/-- An all-ones `1 × 1` float tensor, used as batch and noise input. -/
def oneMat11 : Mat 1 1 := fun _ _ => 1

/-- Two consecutive executions of the `train_op` on a `1`-visible,
`1`-hidden RBM starting from freshly initialised variables (`W = 0`,
zero biases, zero gradient accumulators), with `batch_size = 1`,
`learning_rate = 1`, `momentum = 1/2`, `n_gibbs_steps = 1`, batch
`X = [[1]]` and noise `h_rand = v_rand = [[1]]` at both steps. -/
def actualTwoSteps : Option (TrainState 1 1) :=
  (trainStep constHalf 1 1 (1 / 2) 1 (initState 1 1 (fun _ _ => 0))
      oneMat11 oneMat11 oneMat11).bind
    fun s1 => trainStep constHalf 1 1 (1 / 2) 1 s1 oneMat11 oneMat11 oneMat11

/-- The same two executions under the update the claim describes, where
the momentum-smoothed velocity persists into the next step. -/
def claimedTwoSteps : Option (TrainState 1 1) :=
  (claimedMomentumStep constHalf 1 1 (1 / 2) 1 (initState 1 1 (fun _ _ => 0))
      oneMat11 oneMat11 oneMat11).bind
    fun s1 => claimedMomentumStep constHalf 1 1 (1 / 2) 1 s1 oneMat11 oneMat11 oneMat11

end SpecSide

section ChainLemmas

variable {m nv nh : ℕ}

/-- For a positive step count the source loop ignores its accumulator
and returns the output of the last of `k + 1` sweeps, which is the
sweep applied to the `k`-fold iterate of the hidden-samples
transition. -/
theorem gibbsLoop_pos (sg : ℚ → ℚ) (p : RBMWeights nv nh)
    (h_rand : Mat m nh) (v_rand : Mat m nv) :
    ∀ (k : ℕ) (acc : Option (SweepOut m nv nh)) (hs : Mat m nh),
      (gibbsLoop sg p h_rand v_rand acc hs (k + 1)).1 =
        some (sweep sg p h_rand v_rand ((sweepHs sg p h_rand v_rand)^[k] hs))
  | 0, _, _ => rfl
  | k + 1, acc, hs => by
    show (gibbsLoop sg p h_rand v_rand
        (some (sweep sg p h_rand v_rand hs))
        (sweep sg p h_rand v_rand hs).h_samples (k + 1)).1 = _
    rw [gibbsLoop_pos sg p h_rand v_rand k, Function.iterate_succ_apply]
    rfl

/-- The chain of `_make_train_op` with `k + 1` Gibbs steps produces the
spec-side CD chain. -/
theorem gibbsChain_pos (sg : ℚ → ℚ) (p : RBMWeights nv nh)
    (h_rand : Mat m nh) (v_rand : Mat m nv) (X : Mat m nv) (k : ℕ) :
    (gibbsChain sg p h_rand v_rand X (k + 1)).2.1 =
      some (cdChainSpec sg p h_rand v_rand X k) :=
  gibbsLoop_pos sg p h_rand v_rand k none ((sample_h_given_v sg p h_rand X).2)

/-- Evaluation lemma: one `train_op` execution with `n_gibbs_steps = 1`,
with the single sweep spelled out. -/
theorem trainStep_one (sg : ℚ → ℚ) (N lr mom : ℚ) (s : TrainState nv nh)
    (X : Mat m nv) (h_rand : Mat m nh) (v_rand : Mat m nv) :
    trainStep sg N lr mom 1 s X h_rand v_rand =
      some (momentumUpdates lr mom s
        (gradsEstimates N X (sample_h_given_v sg ⟨s.W, s.hb, s.vb⟩ h_rand X).1
          (sweep sg ⟨s.W, s.hb, s.vb⟩ h_rand v_rand
            ((sample_h_given_v sg ⟨s.W, s.hb, s.vb⟩ h_rand X).2)).h_means
          (sweep sg ⟨s.W, s.hb, s.vb⟩ h_rand v_rand
            ((sample_h_given_v sg ⟨s.W, s.hb, s.vb⟩ h_rand X).2)).v_samples)) :=
  rfl

/-- Evaluation lemma: one step of the claimed (velocity-persisting)
update with `n_gibbs_steps = 1`. -/
theorem claimedMomentumStep_one (sg : ℚ → ℚ) (N lr mom : ℚ) (s : TrainState nv nh)
    (X : Mat m nv) (h_rand : Mat m nh) (v_rand : Mat m nv) :
    claimedMomentumStep sg N lr mom 1 s X h_rand v_rand =
      some
        (let est := gradsEstimates N X (sample_h_given_v sg ⟨s.W, s.hb, s.vb⟩ h_rand X).1
          (sweep sg ⟨s.W, s.hb, s.vb⟩ h_rand v_rand
            ((sample_h_given_v sg ⟨s.W, s.hb, s.vb⟩ h_rand X).2)).h_means
          (sweep sg ⟨s.W, s.hb, s.vb⟩ h_rand v_rand
            ((sample_h_given_v sg ⟨s.W, s.hb, s.vb⟩ h_rand X).2)).v_samples
        { W := fun i j => s.W i j + lr * (mom * s.dW i j + est.1 i j)
          hb := fun j => s.hb j + lr * (mom * s.dhb j + est.2.1 j)
          vb := fun j => s.vb j + lr * (mom * s.dvb j + est.2.2 j)
          dW := fun i j => mom * s.dW i j + est.1 i j
          dhb := fun j => mom * s.dhb j + est.2.1 j
          dvb := fun j => mom * s.dvb j + est.2.2 j }) :=
  rfl

end ChainLemmas

section TransformLemmas

variable {lenX nv nh : ℕ}

/-- With a positive number of Gibbs steps, `transform_op` yields the
hidden means of the spec-side CD chain. -/
theorem transform_op_pos (sg : ℚ → ℚ) (p : RBMWeights nv nh) {m : ℕ}
    (h_rand : Mat m nh) (v_rand : Mat m nv) (X : Mat m nv) (k : ℕ) :
    transform_op sg p h_rand v_rand X (k + 1) =
      some ((cdChainSpec sg p h_rand v_rand X k).h_means) := by
  unfold transform_op
  rw [gibbsChain_pos]
  rfl

/-- The option-valued fold of `transform` never fails for a positive
number of Gibbs steps and equals the pure fold of block writes. -/
theorem transform_foldl_pure (sg : ℚ → ℚ) (p : RBMWeights nv nh) (bs : ℕ)
    (randH : ℕ → Mat bs nh) (randV : ℕ → Mat bs nv) (k : ℕ) (X : Mat lenX nv) :
    ∀ (l : List ℕ) (H : Mat lenX nh),
      l.foldl
        (fun acc b =>
          acc.bind fun H2 =>
            (transform_op sg p (randH b) (randV b) (batchOf bs X b) (k + 1)).map
              fun Hb => writeBlock bs H2 (b * bs) Hb)
        (some H) =
      some (l.foldl
        (fun H2 b =>
          writeBlock bs H2 (b * bs) (transformBatchMeans sg p bs randH randV k X b))
        H)
  | [], _ => rfl
  | b :: t, H => by
    rw [List.foldl_cons, List.foldl_cons, Option.some_bind, transform_op_pos,
      Option.map_some']
    exact transform_foldl_pure sg p bs randH randV k X t _

/-- Pointwise value of one block write. -/
theorem writeBlock_apply (bs : ℕ) (H : Mat lenX nh) (start : ℕ)
    (Hb : Mat bs nh) (i : Fin lenX) (j : Fin nh) :
    writeBlock bs H start Hb i j =
      if h : start ≤ i.val ∧ i.val < start + bs then Hb ⟨i.val - start, by omega⟩ j
      else H i j :=
  rfl

/-- Value of the pure fold of block writes: row `i` holds the block
entry of batch `i / bs` when `i` lies inside the first `n` blocks, and
is untouched otherwise. -/
theorem writeBlocks_value {nh : ℕ} (bs : ℕ) (hbs : 0 < bs) (g : ℕ → Mat bs nh) :
    ∀ (n : ℕ) (H : Mat lenX nh) (i : Fin lenX) (j : Fin nh),
      ((List.range n).foldl (fun H2 b => writeBlock bs H2 (b * bs) (g b)) H) i j =
        if i.val < n * bs then
          g (i.val / bs) ⟨i.val % bs, Nat.mod_lt _ hbs⟩ j
        else H i j := by
  intro n
  induction n with
  | zero => intro H i j; simp
  | succ n ih =>
    intro H i j
    rw [List.range_succ, List.foldl_append, List.foldl_cons, List.foldl_nil,
      writeBlock_apply]
    by_cases hcov : n * bs ≤ i.val ∧ i.val < n * bs + bs
    · rw [dif_pos hcov]
      have hd : i.val / bs = n :=
        Nat.div_eq_of_lt_le hcov.1 (by rw [Nat.succ_mul]; exact hcov.2)
      have hm := Nat.mod_add_div i.val bs
      rw [hd, Nat.mul_comm bs n] at hm
      have hmod : i.val % bs = i.val - n * bs := by omega
      have hlt : i.val < (n + 1) * bs := by rw [add_one_mul]; exact hcov.2
      rw [if_pos hlt, hd]
      exact congrFun (congrArg (g n) (Fin.ext hmod.symm)) j
    · rw [dif_neg hcov, ih H i j]
      by_cases h1 : i.val < n * bs
      · have hlt : i.val < (n + 1) * bs := by rw [add_one_mul]; omega
        rw [if_pos h1, if_pos hlt]
      · have hn : ¬ i.val < (n + 1) * bs := by
          rw [add_one_mul]
          intro hc
          exact hcov ⟨Nat.le_of_not_lt h1, hc⟩
        rw [if_neg h1, if_neg hn]

end TransformLemmas

section Claims

variable {m nv nh : ℕ}

/-- C1: for every training step built by `_make_train_op`, each gradient
estimate equals the difference of the positive and negative associations
divided by the batch size: `dW = (X_batch^T h0_means - v_samples^T h_means) / batch_size`,
`dhb` is the columnwise mean over the batch of `h0_means - h_means`
divided by the batch size, and `dvb` is the columnwise mean over the
batch of `X_batch - v_samples` divided by the batch size — each estimate
carries exactly one factor `1 / batch_size`. -/
theorem C1_gradient_estimates (N : ℚ) (X : Mat m nv)
    (h0_means h_means : Mat m nh) (v_samples : Mat m nv) :
    gradsEstimates N X h0_means h_means v_samples =
      (fun i j => ((∑ r, X r i * h0_means r j) - (∑ r, v_samples r i * h_means r j)) / N,
       fun j => ((∑ i, (h0_means i j - h_means i j)) / (m : ℚ)) / N,
       fun j => ((∑ i, (X i j - v_samples i j)) / (m : ℚ)) / N) :=
  rfl

/-- C3: for every `n_gibbs_steps = k + 1 ≥ 1` the training graph performs
CD-k: it first samples hidden units from the input batch, then runs
exactly `k + 1` Gibbs sweeps — each sweep samples visible units from the
current hidden samples and then hidden units from those visible samples —
and the negative-phase terms of the gradient estimates are the final
sweep's `v_samples` and `h_means`. -/
theorem C3_cd_k_chain (sg : ℚ → ℚ) (N lr mom : ℚ) (s : TrainState nv nh)
    (X : Mat m nv) (h_rand : Mat m nh) (v_rand : Mat m nv) (k : ℕ) :
    (gibbsChain sg ⟨s.W, s.hb, s.vb⟩ h_rand v_rand X (k + 1)).1 =
        sample_h_given_v sg ⟨s.W, s.hb, s.vb⟩ h_rand X ∧
    (gibbsChain sg ⟨s.W, s.hb, s.vb⟩ h_rand v_rand X (k + 1)).2.1 =
        some (cdChainSpec sg ⟨s.W, s.hb, s.vb⟩ h_rand v_rand X k) ∧
    trainStep sg N lr mom (k + 1) s X h_rand v_rand =
      some (momentumUpdates lr mom s
        (gradsEstimates N X (sample_h_given_v sg ⟨s.W, s.hb, s.vb⟩ h_rand X).1
          (cdChainSpec sg ⟨s.W, s.hb, s.vb⟩ h_rand v_rand X k).h_means
          (cdChainSpec sg ⟨s.W, s.hb, s.vb⟩ h_rand v_rand X k).v_samples)) := by
  refine ⟨rfl, gibbsChain_pos sg ⟨s.W, s.hb, s.vb⟩ h_rand v_rand X k, ?_⟩
  unfold trainStep
  dsimp only
  rw [gibbsChain_pos]
  rfl

/-- C2: the claim says the velocity accumulators `dW`, `dhb`, `dvb` are
set to `momentum` times their previous value plus the gradient estimate
and that the updated velocity persists into the next training step.  In
the code the `momentum * dW + estimate` tensors are only rebound to
Python attributes and the grouped `train_op` never assigns the `grads`
variables, so (first conjunct) every training step leaves `dW`, `dhb`,
`dvb` exactly as they were; concretely (remaining conjuncts), after two
steps on a `1 × 1` RBM with `learning_rate = 1`, `momentum = 1/2` and a
constant gradient estimate `1/2`, the code yields `W = 1` with the
accumulator still `0`, while the claimed momentum-smoothed update yields
`W = 5/4` with velocity `3/4`. -/
theorem C2_velocity_not_persisted :
    (∀ (m nv nh : ℕ) (sg : ℚ → ℚ) (N lr mom : ℚ) (k : ℕ)
        (s : TrainState nv nh) (X : Mat m nv) (h_rand : Mat m nh) (v_rand : Mat m nv),
      (trainStep sg N lr mom k s X h_rand v_rand).map (fun t => (t.dW, t.dhb, t.dvb)) =
        (trainStep sg N lr mom k s X h_rand v_rand).map (fun _ => (s.dW, s.dhb, s.dvb))) ∧
    actualTwoSteps.map (fun t => (t.W 0 0, t.dW 0 0)) = some (1, 0) ∧
    claimedTwoSteps.map (fun t => (t.W 0 0, t.dW 0 0)) = some (5 / 4, 3 / 4) := by
  refine ⟨?_, ?_, ?_⟩
  · intro m nv nh sg N lr mom k s X h_rand v_rand
    unfold trainStep
    dsimp only
    cases (gibbsChain sg ⟨s.W, s.hb, s.vb⟩ h_rand v_rand X k).2.1 <;> rfl
  · norm_num [actualTwoSteps, trainStep_one, momentumUpdates, gradsEstimates,
      sample_h_given_v, sample_v_given_h, sweep, propup, propdown, matmul,
      transposeM, addRowBias, toFloatLess, reduceMeanAxis0, initState,
      constHalf, oneMat11, Option.bind, Fin.sum_univ_one]
  · norm_num [claimedTwoSteps, claimedMomentumStep_one, gradsEstimates,
      sample_h_given_v, sample_v_given_h, sweep, propup, propdown, matmul,
      transposeM, addRowBias, toFloatLess, reduceMeanAxis0, initState,
      constHalf, oneMat11, Option.bind, Fin.sum_univ_one]

/-- C4: the MSRE metric of the training graph equals the mean over all
entries of the squared elementwise difference between the input batch
`X_batch` and the reconstructed visible means `v_means` of the last
Gibbs sweep. -/
theorem C4_msre (sg : ℚ → ℚ) (p : RBMWeights nv nh)
    (h_rand : Mat m nh) (v_rand : Mat m nv) (X : Mat m nv) (k : ℕ) :
    msre_op sg p h_rand v_rand X (k + 1) =
      some ((∑ i, ∑ j,
              (X i j - (cdChainSpec sg p h_rand v_rand X k).v_means i j) ^ 2) /
            ((m * nv : ℕ) : ℚ)) := by
  unfold msre_op
  rw [gibbsChain_pos]
  simp [reduceMeanAll, tfSquare, pow_two]

/-- C5: for every batch of visible vectors `v`, the free-energy metric
equals the mean over the batch rows of minus the dot product of the row
with `vb`, minus the sum over hidden units of `softplus(v W + hb)`. -/
theorem C5_free_energy (sp : ℚ → ℚ) (p : RBMWeights nv nh) (v : Mat m nv) :
    free_energy sp p v =
      (∑ i, (-(∑ j, v i j * p.vb j) - ∑ j, sp ((matmul v p.W) i j + p.hb j))) /
        (m : ℚ) :=
  rfl

/-- C6: for every visible configuration `v` and uniform noise matrix
`h_rand`, the sampled hidden unit is `1.0` exactly when the noise entry
is strictly below `sigmoid((v W + hb)[i][j])` and `0.0` otherwise;
symmetrically, the sampled visible unit is `1.0` exactly when the noise
entry is strictly below `sigmoid((h W^T + vb)[i][j])`. -/
theorem C6_sigmoid_sampling (sg : ℚ → ℚ) (p : RBMWeights nv nh)
    (h_rand : Mat m nh) (v_rand : Mat m nv) (v : Mat m nv) (h : Mat m nh)
    (i : Fin m) (j : Fin nh) (j2 : Fin nv) :
    ((sample_h_given_v sg p h_rand v).2 i j =
      if h_rand i j < sg ((matmul v p.W) i j + p.hb j) then 1 else 0) ∧
    ((sample_v_given_h sg p v_rand h).2 i j2 =
      if v_rand i j2 < sg ((matmul h (transposeM p.W)) i j2 + p.vb j2) then 1 else 0) :=
  ⟨rfl, rfl⟩

/-- C8: saving a model persists its state as the `params.json` parameter
file plus framework-native checkpoint files in the model directory, and
`load_model` on that directory restores a model whose parameters (set by
`set_params` on the decoded JSON) equal the saved ones: a save/load
round-trip preserves the model's parameters. -/
theorem C8_save_load_round_trip (mo defaults : PersistModel) :
    get_params (load_model defaults (save_model_dir mo)) = get_params mo :=
  rfl

/-- C7: on a model on which `fit` has not been called, `get_weights`
raises an error (the guard runs before anything else, so the model state
is unchanged — the embedding returns without touching the model); under
the preconditions `called_fit = True` and `save_model = True`,
`get_weights` does not raise, returning the unchanged model and a
weights dict. -/
theorem C7_get_weights_guards (mo : TFModel) :
    (mo.called_fit = false →
      get_weights mo = Except.error "fit must be called before calling get_weights") ∧
    (mo.called_fit = true → mo.save_model = true →
      ∃ w, get_weights mo = Except.ok (mo, w)) := by
  constructor
  · intro h
    simp [get_weights, h]
  · intro h1 h2
    exact ⟨mo.attrs.filter is_weight_name, by simp [get_weights, h1, h2]⟩

/-- Witness for C7: a model before `fit` raises, and a fitted model with
`save_model = True` succeeds. -/
theorem C7_get_weights_guards_witness :
    get_weights { save_model := true, called_fit := false, attrs := ["_W"] } =
        Except.error "fit must be called before calling get_weights" ∧
    ∃ w, get_weights fittedBaseRBM = Except.ok (fittedBaseRBM, w) :=
  ⟨(C7_get_weights_guards _).1 rfl, (C7_get_weights_guards _).2 rfl rfl⟩

/-- C9: on every fitted model with `save_model = True`, `get_weights`
returns exactly the attributes selected by `is_weight_name` (name does
not start with an underscore and does end with one); each RBM weight
attribute `_W`, `_hb`, `_vb` starts with an underscore, no attribute of
`BaseRBM` passes the filter, and the weights dict of a fitted `BaseRBM`
is empty. -/
theorem C9_weights_dict_empty :
    (∀ mo : TFModel, mo.called_fit = true → mo.save_model = true →
      get_weights mo = Except.ok (mo, mo.attrs.filter is_weight_name)) ∧
    is_weight_name "_W" = false ∧
    is_weight_name "_hb" = false ∧
    is_weight_name "_vb" = false ∧
    baseRBMAttrNames.filter is_weight_name = [] ∧
    get_weights fittedBaseRBM = Except.ok (fittedBaseRBM, []) := by
  refine ⟨?_, by decide, by decide, by decide, by decide, rfl⟩
  intro mo h1 h2
  simp [get_weights, h1, h2]

/-- Witness for C9 at the fitted `BaseRBM` instance. -/
theorem C9_weights_dict_empty_witness :
    get_weights fittedBaseRBM =
      Except.ok (fittedBaseRBM, baseRBMAttrNames.filter is_weight_name) :=
  C9_weights_dict_empty.1 fittedBaseRBM rfl rfl

/-- C10: for every input `X`, `transform` returns a matrix with `len(X)`
rows and `n_hidden` columns (the type `Mat lenX nh` of the result), in
which batch `b`'s hidden means occupy rows `b*batch_size` up to
`(b+1)*batch_size` in input order, and the rows beyond the last written
full batch keep their `np.zeros` initial value. -/
theorem C10_transform_blocks {lenX nv nh : ℕ} (sg : ℚ → ℚ) (p : RBMWeights nv nh)
    (bs : ℕ) (hbs : 0 < bs) (randH : ℕ → Mat bs nh) (randV : ℕ → Mat bs nv)
    (k : ℕ) (X : Mat lenX nv) :
    transform sg p bs randH randV (k + 1) X =
      some (blockSpec bs hbs (transformBatchMeans sg p bs randH randV k X) (lenX / bs)) := by
  unfold transform
  dsimp only
  rw [transform_foldl_pure]
  congr 1
  funext i j
  rw [writeBlocks_value bs hbs]
  unfold blockSpec
  by_cases hi : i.val < lenX / bs * bs
  · rw [if_pos hi]
  · rw [if_neg hi]

/-- Witness for C10 on a concrete `3 × 1` input with `batch_size = 2`
and one Gibbs step: one full batch is written and the trailing row stays
zero. -/
theorem C10_transform_blocks_witness :
    transform constHalf ⟨(fun _ _ => 0 : Mat 1 1), fun _ => 0, fun _ => 0⟩ 2
        (fun _ => fun _ _ => 1) (fun _ => fun _ _ => 1) 1 (fun _ _ => 1 : Mat 3 1) =
      some (blockSpec 2 (by norm_num)
        (transformBatchMeans constHalf ⟨(fun _ _ => 0 : Mat 1 1), fun _ => 0, fun _ => 0⟩ 2
          (fun _ => fun _ _ => 1) (fun _ => fun _ _ => 1) 0 (fun _ _ => 1 : Mat 3 1))
        (3 / 2)) :=
  C10_transform_blocks constHalf ⟨(fun _ _ => 0 : Mat 1 1), fun _ => 0, fun _ => 0⟩ 2
    (by norm_num) (fun _ => fun _ _ => 1) (fun _ => fun _ _ => 1) 0
    (fun _ _ => 1 : Mat 3 1)

end Claims

end BoltzmannSpec
